import Mathlib

/-!
Verification of `planning_update.py`, a one-shot batch job that reschedules
recurring Trello cards: it filters past-due cards labelled "Regular",
advances their due date by a recurrence rule parsed from the description,
moves them to the board list named after the new due date's weekday, and
finally re-sorts every list by due date.

The embedding models Python `datetime` values (at second granularity, since
the wire format fixes milliseconds to `.000`) as a Gregorian calendar record,
and `dateutil.relativedelta` addition for the plural relative units
(`years`, `months`, `weeks`, `days`, `hours`, `minutes`, `seconds`) exactly:
fixed-length units add with full calendar carry, `months`/`years` shift the
month/year and clamp the day-of-month to the target month's length.
-/

set_option maxHeartbeats 1000000

/-- Proleptic Gregorian leap-year test (the rule Python's `datetime` uses). -/
def isLeap (y : Nat) : Bool := (y % 4 == 0 && y % 100 != 0) || y % 400 == 0

/-- Number of days in month `m` of year `y` (months numbered 1..12). -/
def daysInMonth (y m : Nat) : Nat :=
  if m = 2 then (if isLeap y then 29 else 28)
  else if m = 4 ∨ m = 6 ∨ m = 9 ∨ m = 11 then 30
  else 31

/-- Days of year `y` that precede month `m` (months numbered 1..12). -/
def daysBeforeMonth (y m : Nat) : Nat :=
  (match m with
   | 1 => 0 | 2 => 31 | 3 => 59 | 4 => 90 | 5 => 120 | 6 => 151
   | 7 => 181 | 8 => 212 | 9 => 243 | 10 => 273 | 11 => 304 | 12 => 334
   | _ => 365)
  + (if 3 ≤ m ∧ isLeap y = true then 1 else 0)

/-- Days strictly before January 1 of year `y` (proleptic Gregorian, year ≥ 1). -/
def daysBeforeYear (y : Nat) : Nat :=
  365 * (y - 1) + (y - 1) / 4 - (y - 1) / 100 + (y - 1) / 400

/-- Rata die day number: 0001-01-01 is day 1. -/
def toRataDie (y m d : Nat) : Nat := daysBeforeYear y + daysBeforeMonth y m + d

/-- A `datetime.datetime` value at second granularity (the timestamp format
`%Y-%m-%dT%H:%M:%S.000Z` forces the sub-second part to zero). -/
structure DateTime where
  year : Nat
  month : Nat
  day : Nat
  hour : Nat
  minute : Nat
  second : Nat
deriving DecidableEq, Repr

/-- Seconds since the start of year 1; linearizes `datetime` comparison. -/
def toSec (dt : DateTime) : Nat :=
  toRataDie dt.year dt.month dt.day * 86400
    + dt.hour * 3600 + dt.minute * 60 + dt.second

/-- The `<` comparison of two `datetime` values, as a Bool. -/
def dtLt (a b : DateTime) : Bool := decide (toSec a < toSec b)

/-- Field-range invariant every real `datetime` value satisfies. -/
def ValidDT (dt : DateTime) : Prop :=
  1 ≤ dt.year ∧ 1 ≤ dt.month ∧ dt.month ≤ 12 ∧ 1 ≤ dt.day ∧
    dt.day ≤ daysInMonth dt.year dt.month ∧
    dt.hour < 24 ∧ dt.minute < 60 ∧ dt.second < 60

instance (dt : DateTime) : Decidable (ValidDT dt) := by
  unfold ValidDT; infer_instance

/-- Advance a `datetime` by one calendar day (time-of-day unchanged). -/
def nextDay (dt : DateTime) : DateTime :=
  if dt.day < daysInMonth dt.year dt.month then { dt with day := dt.day + 1 }
  else if dt.month < 12 then { dt with month := dt.month + 1, day := 1 }
  else { dt with year := dt.year + 1, month := 1, day := 1 }

/-- Advance a `datetime` by one hour, with calendar carry. -/
def nextHour (dt : DateTime) : DateTime :=
  if dt.hour < 23 then { dt with hour := dt.hour + 1 }
  else { nextDay dt with hour := 0 }

/-- Advance a `datetime` by one minute, with calendar carry. -/
def nextMinute (dt : DateTime) : DateTime :=
  if dt.minute < 59 then { dt with minute := dt.minute + 1 }
  else { nextHour dt with minute := 0 }

/-- Advance a `datetime` by one second, with calendar carry. -/
def nextSecond (dt : DateTime) : DateTime :=
  if dt.second < 59 then { dt with second := dt.second + 1 }
  else { nextMinute dt with second := 0 }

/-- `relativedelta(months=n)` addition: shift the month with carry into the
year, then clamp the day-of-month to the target month's length. -/
def addMonths (n : Nat) (dt : DateTime) : DateTime :=
  { dt with
    year := dt.year + (dt.month - 1 + n) / 12,
    month := (dt.month - 1 + n) % 12 + 1,
    day := min dt.day
      (daysInMonth (dt.year + (dt.month - 1 + n) / 12)
        ((dt.month - 1 + n) % 12 + 1)) }

/-- `relativedelta(years=n)` addition: shift the year and clamp the day
(Feb 29 becomes Feb 28 in a non-leap target year). -/
def addYears (n : Nat) (dt : DateTime) : DateTime :=
  { dt with
    year := dt.year + n,
    day := min dt.day (daysInMonth (dt.year + n) dt.month) }

/-- Linear month index of a date. -/
def monthIdx (dt : DateTime) : Nat := 12 * dt.year + (dt.month - 1)

/-- Rata die of the first day of the month with linear index `i`, minus 1. -/
def gIdx (i : Nat) : Nat :=
  daysBeforeYear (i / 12) + daysBeforeMonth (i / 12) (i % 12 + 1)

/-- The relative plural period units of `dateutil.relativedelta` that the
recurrence grammar can produce and the model covers. -/
inductive RDUnit where
  | years | months | weeks | days | hours | minutes | seconds
deriving DecidableEq, Repr

/-- Which unit token `relativedelta(**{unit: count})` accepts as a relative
period; any other token makes the constructor raise TypeError, which
`process_card` catches and turns into a logged skip. -/
def parseUnit : String → Option RDUnit
  | "years" => some RDUnit.years
  | "months" => some RDUnit.months
  | "weeks" => some RDUnit.weeks
  | "days" => some RDUnit.days
  | "hours" => some RDUnit.hours
  | "minutes" => some RDUnit.minutes
  | "seconds" => some RDUnit.seconds
  | _ => none

/-- Effect of `dt + relativedelta(**{unit: n})` on a `datetime`. -/
def applyDelta (u : RDUnit) (n : Nat) (dt : DateTime) : DateTime :=
  match u with
  | RDUnit.years => addYears n dt
  | RDUnit.months => addMonths n dt
  | RDUnit.weeks => Nat.iterate nextDay (7 * n) dt
  | RDUnit.days => Nat.iterate nextDay n dt
  | RDUnit.hours => Nat.iterate nextHour n dt
  | RDUnit.minutes => Nat.iterate nextMinute n dt
  | RDUnit.seconds => Nat.iterate nextSecond n dt

/-- A loop step that keeps the date well-formed and strictly advances time. -/
def StepOK (step : DateTime → DateTime) : Prop :=
  ∀ d, ValidDT d → ValidDT (step d) ∧ toSec d < toSec (step d)

/-- The while loop of `process_card` — `while due < current_time: due +=
relativedelta(...)` — with explicit fuel. `none` means the loop has not
finished within `fuel` iterations (so with no fuel bound it runs forever). -/
def advanceLoop (step : DateTime → DateTime) (now : DateTime) :
    Nat → DateTime → Option DateTime
  | 0, due => if dtLt due now then none else some due
  | fuel + 1, due =>
    if dtLt due now then advanceLoop step now fuel (step due) else some due

/-- The seven weekday list names, Monday first, as in the source. -/
def list_names : List String :=
  ["Понедельник", "Вторник", "Среда", "Четверг", "Пятница", "Суббота",
   "Воскресенье"]

/-- Python `datetime.weekday()`: 0 = Monday … 6 = Sunday (0001-01-01 was a
Monday, i.e. rata die 1 has weekday 0). -/
def weekday (dt : DateTime) : Nat := (toRataDie dt.year dt.month dt.day + 6) % 7

/-- A board list as fetched from the service (the `List` dataclass; renamed
because `List` is taken in Lean). -/
structure BoardList where
  name : String
  identifier : String
deriving DecidableEq, Repr

/-- A raw task record as returned by the board service, restricted to the
fields the pipeline reads. `labels` holds the label display names
(`label.get("name", "")`); `due` is `none` when the JSON field is null. -/
structure RawCard where
  name : String
  id : String
  labels : List String
  due : Option String
  desc : String
deriving DecidableEq, Repr

/-- The `Card` dataclass produced by the filter. -/
structure Card where
  name : String
  identifier : String
  due : DateTime
  period_len : Nat
  period_type : String
deriving DecidableEq, Repr

/-- The `CardToSort` dataclass of the reorder phase. -/
structure CardToSort where
  name : String
  identifier : String
  due : DateTime
deriving DecidableEq, Repr

/-- Numeric value of a digit character. -/
def digitVal (c : Char) : Nat := c.toNat - 48

/-- Decimal number denoted by a digit string (`int(s)`). -/
def readNat (cs : List Char) : Nat := cs.foldl (fun a c => a * 10 + digitVal c) 0

/-- `datetime.strptime(s, "%Y-%m-%dT%H:%M:%S.000Z")` on the canonical fixed
format, including the field-range validation strptime performs; `none`
models the raised ValueError. -/
def parseDate (s : String) : Option DateTime :=
  match s.toList with
  | [y1, y2, y3, y4, c1, m1, m2, c2, d1, d2, c3, h1, h2, c4, n1, n2, c5,
     s1, s2, c6, z1, z2, z3, c7] =>
    if ([y1, y2, y3, y4, m1, m2, d1, d2, h1, h2, n1, n2, s1, s2].all
          Char.isDigit
        && c1 == '-' && c2 == '-' && c3 == 'T' && c4 == ':' && c5 == ':'
        && c6 == '.' && z1 == '0' && z2 == '0' && z3 == '0' && c7 == 'Z') then
      let dt : DateTime :=
        ⟨readNat [y1, y2, y3, y4], readNat [m1, m2], readNat [d1, d2],
         readNat [h1, h2], readNat [n1, n2], readNat [s1, s2]⟩
      if ValidDT dt then some dt else none
    else none
  | _ => none

/-- `strptime(card["due"], dateformat)` where the field may be JSON null
(Python `None`), which raises TypeError → parse failure. -/
def parseDue : Option String → Option DateTime
  | none => none
  | some s => parseDate s

/-- ASCII word characters of the regex class `\w`. -/
def isWordChar (c : Char) : Bool := c.isAlphanum || c == '_'

/-- `re.match(r"(\d+) (\w+)", desc).group(1, 2)` followed by `int(...)`:
leading digits, a single space, then a nonempty run of word characters. -/
def parseRecurrence (s : String) : Option (Nat × String) :=
  let cs := s.toList
  let digits := cs.takeWhile Char.isDigit
  match cs.drop digits.length with
  | ' ' :: rest =>
    let word := rest.takeWhile isWordChar
    if digits.isEmpty || word.isEmpty then none
    else some (readNat digits, String.mk word)
  | _ => none

/-- `is_regular` from `filter_out_cards`. -/
def is_regular (card : RawCard) : Bool :=
  card.labels.any (fun l => l == "Regular")

/-- One loop iteration of `filter_out_cards`, threading the function-local
variables `period_len`/`period_type` (which keep their value from the last
successful parse across iterations; `none` = never assigned) and the
accumulator. `Except.error` models the UnboundLocalError raised when the
append reads them before any successful parse. -/
def filterStep (now : DateTime) (st : Option (Nat × String)) (acc : List Card)
    (card : RawCard) : Except String (Option (Nat × String) × List Card) :=
  if !is_regular card then Except.ok (st, acc)
  else
    match parseDue card.due with
    | none => Except.ok (st, acc)
    | some due =>
      if !dtLt due now then Except.ok (st, acc)
      else
        match parseRecurrence card.desc with
        | some (len, ty) =>
          Except.ok (some (len, ty), acc ++ [Card.mk card.name card.id due len ty])
        | none =>
          match st with
          | some (len, ty) =>
            Except.ok (st, acc ++ [Card.mk card.name card.id due len ty])
          | none => Except.error "UnboundLocalError"

/-- The loop of `filter_out_cards` over the remaining raw cards. -/
def filterGo (now : DateTime) (st : Option (Nat × String)) (acc : List Card) :
    List RawCard → Except String (Option (Nat × String) × List Card)
  | [] => Except.ok (st, acc)
  | card :: rest =>
    match filterStep now st acc card with
    | Except.ok (st2, acc2) => filterGo now st2 acc2 rest
    | Except.error e => Except.error e

/-- `filter_out_cards`: either the sequence of past-due Regular cards
(possibly with stale recurrence fields) or an uncaught UnboundLocalError. -/
def filter_out_cards (now : DateTime) (cards : List RawCard) :
    Except String (List Card) :=
  match filterGo now none [] cards with
  | Except.ok (_, acc) => Except.ok acc
  | Except.error e => Except.error e

/-- Name, id and parsed due date of a raw card that passes the label check,
the due-date parse and the past-due test of the filter. The recurrence parse
is deliberately not part of this predicate: its failure does not prevent the
append (see C6/C10). -/
def eligibleProj (now : DateTime) (card : RawCard) :
    Option (String × String × DateTime) :=
  if is_regular card then
    match parseDue card.due with
    | some due =>
      if dtLt due now then some (card.name, card.id, due) else none
    | none => none
  else none

/-- Identity of a filtered card, forgetting the recurrence fields. -/
def cardKey (c : Card) : String × String × DateTime :=
  (c.name, c.identifier, c.due)

/-- A board-service mutation issued over HTTP PUT. -/
inductive Command where
  | relocate (cardId : String) (due : DateTime) (listId : String)
  | reposition (cardId : String)
deriving DecidableEq, Repr

/-- The for/else lookup in `process_card`: identifier of the first fetched
list whose name equals the wanted weekday name. -/
def findListId (lists : List BoardList) (nm : String) : Option String :=
  (lists.find? (fun l => l.name == nm)).map (fun l => l.identifier)

/-- `list_names[due.weekday()]` (the index is always in range). -/
def routeName (due : DateTime) : String := list_names.getD (weekday due) ""

/-- The advancement stage of `process_card`. `none`: the while loop never
finishes (no exception is raised; the process hangs). `some none`: an
exception — `relativedelta` rejecting the unit keyword — was caught, the
card is skipped. `some (some d)`: the loop finished with new due date `d`.
The unit keyword is only evaluated if the loop body runs at least once. -/
def advanceStage (fuel : Nat) (now : DateTime) (card : Card) :
    Option (Option DateTime) :=
  if !dtLt card.due now then some (some card.due)
  else
    match parseUnit card.period_type with
    | none => some none
    | some u =>
      match advanceLoop (applyDelta u card.period_len) now fuel card.due with
      | none => none
      | some d => some (some d)

/-- `process_card`: `none` = the run hangs in the while loop; `some none` =
card skipped with a logged error; `some (some cmd)` = one relocation PUT. -/
def process_card (fuel : Nat) (now : DateTime) (lists : List BoardList)
    (card : Card) : Option (Option Command) :=
  match advanceStage fuel now card with
  | none => none
  | some none => some none
  | some (some due2) =>
    match findListId lists (routeName due2) with
    | none => some none
    | some listId => some (some (Command.relocate card.identifier due2 listId))

/-- Outcomes of the board service's two GET endpoints for one run;
`Except.error` models a raised exception in the request layer. -/
structure Board where
  listsResp : Except String (List BoardList)
  cardsResp : String → Except String (List RawCard)

/-- `get_lists`: a failed fetch degrades to the empty collection; otherwise
keep, in order, exactly the fetched lists whose names are weekday names. -/
def get_lists (resp : Except String (List BoardList)) : List BoardList :=
  match resp with
  | Except.error _ => []
  | Except.ok ls => ls.filter (fun l => list_names.contains l.name)

/-- `get_cards`: a failed fetch degrades to the empty list. -/
def get_cards (resp : Except String (List RawCard)) : List RawCard :=
  match resp with
  | Except.error _ => []
  | Except.ok cs => cs

/-- Phase-1 inner loop: process each filtered card in order; `none` when
some card makes the advancer loop forever. -/
def processCards (fuel : Nat) (now : DateTime) (lists : List BoardList) :
    List Card → Option (List Command)
  | [] => some []
  | c :: cs =>
    match process_card fuel now lists c with
    | none => none
    | some oc =>
      match processCards fuel now lists cs with
      | none => none
      | some rest => some (oc.toList ++ rest)

/-- Phase 1 (relocate) over the fetched lists: commands issued so far plus,
when an exception escapes `filter_out_cards`, the uncaught exception that
aborts `main`. Outer `none` = the run hangs. -/
def phase1 (fuel : Nat) (now : DateTime) (b : Board) (lists : List BoardList) :
    List BoardList → Option (List Command × Option String)
  | [] => some ([], none)
  | l :: ls =>
    match filter_out_cards now (get_cards (b.cardsResp l.identifier)) with
    | Except.error e => some ([], some e)
    | Except.ok cards =>
      match processCards fuel now lists cards with
      | none => none
      | some cmds =>
        match phase1 fuel now b lists ls with
        | none => none
        | some (rest, err) => some (cmds ++ rest, err)

/-- `construct_cards_to_order`: the list comprehension has no try/except —
a card whose due date does not parse raises out of it (ValueError for a
malformed string, TypeError for a null field). -/
def construct_cards_to_order (cards : List RawCard) :
    Except String (List CardToSort) :=
  cards.mapM (fun c =>
    match parseDue c.due with
    | some d => Except.ok (CardToSort.mk c.name c.id d)
    | none => Except.error "ValueError: strptime")

/-- The key order used by `sorted(cards, key=lambda x: x.due)`. -/
def dueLE (a b : CardToSort) : Prop := toSec a.due ≤ toSec b.due

instance : DecidableRel dueLE := fun a b => by unfold dueLE; infer_instance

/-- Python's `sorted` is a stable sort by the key; insertion sort with a
stable insert realizes exactly that specification. -/
def sort_cards (cards : List CardToSort) : List CardToSort :=
  List.insertionSort dueLE cards

/-- Phase 2 (reorder): per list, fetch, construct, sort, and emit one
bottom-reposition PUT per card in sorted order. The second component is the
uncaught exception aborting `main`, if any; commands already issued stay. -/
def phase2 (b : Board) : List BoardList → List Command × Option String
  | [] => ([], none)
  | l :: ls =>
    match construct_cards_to_order (get_cards (b.cardsResp l.identifier)) with
    | Except.error e => ([], some e)
    | Except.ok cards =>
      match phase2 b ls with
      | (rest, err) =>
        ((sort_cards cards).map (fun c => Command.reposition c.identifier)
          ++ rest, err)

/-- `main`: fetch the lists once, run phase 1 over them, then phase 2.
`none` = the run hangs; `some (cmds, some e)` = the run aborted with an
uncaught exception after issuing `cmds`; `some (cmds, none)` = clean exit. -/
def runMain (fuel : Nat) (now : DateTime) (b : Board) :
    Option (List Command × Option String) :=
  match phase1 fuel now b (get_lists b.listsResp) (get_lists b.listsResp) with
  | none => none
  | some (cmds1, some e) => some (cmds1, some e)
  | some (cmds1, none) =>
    match phase2 b (get_lists b.listsResp) with
    | (cmds2, err) => some (cmds1 ++ cmds2, err)

def jan1 : DateTime := ⟨2023, 1, 1, 0, 0, 0⟩

def jan2 : DateTime := ⟨2023, 1, 2, 0, 0, 0⟩

def jan20 : DateTime := ⟨2023, 1, 20, 0, 0, 0⟩

def jan22 : DateTime := ⟨2023, 1, 22, 0, 0, 0⟩

/-- The seven weekday board lists, as fetched in a healthy run. -/
def weekLists : List BoardList :=
  [⟨"Понедельник", "L1"⟩, ⟨"Вторник", "L2"⟩, ⟨"Среда", "L3"⟩,
   ⟨"Четверг", "L4"⟩, ⟨"Пятница", "L5"⟩, ⟨"Суббота", "L6"⟩,
   ⟨"Воскресенье", "L7"⟩]

/-- A Regular past-due card whose description parses as "1 weeks". -/
def goodCard : RawCard :=
  ⟨"weekly task", "c1", ["Regular"], some "2023-01-01T00:00:00.000Z",
   "1 weeks"⟩

/-- A Regular past-due card whose description fails the recurrence regex. -/
def staleCard : RawCard :=
  ⟨"broken rule", "c2", ["Regular"], some "2023-01-02T00:00:00.000Z",
   "every week"⟩

/-- A board whose first (and only matching) list contains only `staleCard`. -/
def c10Board : Board :=
  ⟨Except.ok weekLists,
   fun i => if i == "L1" then Except.ok [staleCard] else Except.ok []⟩

/-- A board whose very first fetch of the list collection raises. -/
def emptyBoard : Board := ⟨Except.error "http error", fun _ => Except.ok []⟩

/-- A board with one weekday list holding two unlabeled cards, the second
with a null due-date field. -/
def phase2CrashBoard : Board :=
  ⟨Except.ok [⟨"Понедельник", "L1"⟩],
   fun i => if i == "L1" then Except.ok
      [⟨"fine card", "c3", [], some "2023-01-05T00:00:00.000Z", ""⟩,
       ⟨"no due date", "c4", [], none, ""⟩]
     else Except.ok []⟩

/-- A past-due card whose parsed rule is count 0 with a recognized unit. -/
def zeroCard : Card := Card.mk "stuck task" "c5" jan1 0 "days"

instance : IsTotal CardToSort dueLE :=
  ⟨fun a b => by unfold dueLE; omega⟩

instance : IsTrans CardToSort dueLE :=
  ⟨fun a b c h1 h2 => by unfold dueLE at h1 h2 ⊢; omega⟩

def feb5 : DateTime := ⟨2023, 2, 5, 0, 0, 0⟩

def feb10 : DateTime := ⟨2023, 2, 10, 0, 0, 0⟩

/-- A board with one weekday list whose cards arrive in descending due
order: due 2023-02-10 first, due 2023-02-05 second. -/
def sortBoard : Board :=
  ⟨Except.ok [⟨"Понедельник", "L1"⟩],
   fun i => if i == "L1" then Except.ok
      [⟨"later", "c6", [], some "2023-02-10T00:00:00.000Z", ""⟩,
       ⟨"sooner", "c7", [], some "2023-02-05T00:00:00.000Z", ""⟩]
     else Except.ok []⟩

/-- A Regular card whose due date 2023-03-01 lies after "now". -/
def futureCard : RawCard :=
  ⟨"future task", "c8", ["Regular"], some "2023-03-01T00:00:00.000Z",
   "1 weeks"⟩

/-- A past-due card without the Regular label. -/
def unlabeledCard : RawCard :=
  ⟨"plain task", "c10", ["Other"], some "2023-01-02T00:00:00.000Z",
   "1 weeks"⟩

theorem daysInMonth_pos (y m : Nat) : 1 ≤ daysInMonth y m := by
  unfold daysInMonth
  split
  · split <;> omega
  · split <;> omega

theorem daysInMonth_le_31 (y m : Nat) : daysInMonth y m ≤ 31 := by
  unfold daysInMonth
  split
  · split <;> omega
  · split <;> omega

theorem daysInMonth_ge_28 (y m : Nat) : 28 ≤ daysInMonth y m := by
  unfold daysInMonth
  split
  · split <;> omega
  · split <;> omega

theorem daysBeforeMonth_succ (y m : Nat) (h1 : 1 ≤ m) (h2 : m ≤ 12) :
    daysBeforeMonth y (m + 1) = daysBeforeMonth y m + daysInMonth y m := by
  interval_cases m <;>
    cases h : isLeap y <;>
      simp [daysBeforeMonth, daysInMonth, h]

theorem daysBeforeYear_succ (y : Nat) (hy : 1 ≤ y) :
    daysBeforeYear (y + 1) =
      daysBeforeYear y + (if isLeap y = true then 366 else 365) := by
  have h4 : y % 4 = 0 ∨ y % 4 ≠ 0 := by omega
  unfold daysBeforeYear isLeap
  split
  · next hleap =>
    simp only [Bool.or_eq_true, Bool.and_eq_true, beq_iff_eq, bne_iff_ne,
      ne_eq] at hleap
    rcases hleap with ⟨hm4, hm100⟩ | hm400
    · omega
    · omega
  · next hleap =>
    simp only [Bool.or_eq_true, Bool.and_eq_true, beq_iff_eq, bne_iff_ne,
      ne_eq, not_or, not_and, Decidable.not_not] at hleap
    obtain ⟨hA, hB⟩ := hleap
    rcases h4 with h | h
    · have h100 := hA h
      omega
    · omega

theorem nextDay_ok (dt : DateTime) (h : ValidDT dt) :
    ValidDT (nextDay dt) ∧ toSec (nextDay dt) = toSec dt + 86400 := by
  obtain ⟨hy, hm1, hm2, hd1, hd2, hh, hmi, hs⟩ := h
  unfold nextDay
  split
  · next hlt =>
    constructor
    · simp only [ValidDT]
      omega
    · simp only [toSec, toRataDie]
      omega
  · next hge =>
    have hdeq : dt.day = daysInMonth dt.year dt.month := by omega
    split
    · next hm12 =>
      have hsucc := daysBeforeMonth_succ dt.year dt.month hm1 hm2
      have hdim1 := daysInMonth_pos dt.year (dt.month + 1)
      constructor
      · simp only [ValidDT]
        omega
      · simp only [toSec, toRataDie]
        omega
    · next hm12 =>
      have hmeq : dt.month = 12 := by omega
      have hylen := daysBeforeYear_succ dt.year hy
      have hdim1 := daysInMonth_pos (dt.year + 1) 1
      have h12 : daysInMonth dt.year 12 = 31 := by simp [daysInMonth]
      have hb12 : daysBeforeMonth dt.year 12 =
          334 + (if isLeap dt.year = true then 1 else 0) := by
        simp [daysBeforeMonth]
      have hb1 : daysBeforeMonth (dt.year + 1) 1 = 0 := by
        simp [daysBeforeMonth]
      constructor
      · simp only [ValidDT]
        omega
      · simp only [toSec, toRataDie]
        rw [hdeq, hmeq, h12, hb12, hb1, hylen]
        cases hL : isLeap dt.year <;> simp [hL] <;> ring

theorem nextHour_ok (dt : DateTime) (h : ValidDT dt) :
    ValidDT (nextHour dt) ∧ toSec (nextHour dt) = toSec dt + 3600 := by
  have hd := nextDay_ok dt h
  obtain ⟨⟨v1, v2, v3, v4, v5, v6, v7, v8⟩, hsec⟩ := hd
  obtain ⟨hy, hm1, hm2, hd1, hd2, hh, hmi, hs⟩ := h
  have htod : (nextDay dt).hour = dt.hour ∧ (nextDay dt).minute = dt.minute ∧
      (nextDay dt).second = dt.second := by
    unfold nextDay
    split
    · exact ⟨rfl, rfl, rfl⟩
    · split
      · exact ⟨rfl, rfl, rfl⟩
      · exact ⟨rfl, rfl, rfl⟩
  obtain ⟨ht1, ht2, ht3⟩ := htod
  unfold nextHour
  split
  · next hlt =>
    constructor
    · simp only [ValidDT]
      omega
    · simp only [toSec]
      omega
  · next hge =>
    constructor
    · simp only [ValidDT] at *
      omega
    · simp only [toSec] at hsec ⊢
      omega

theorem nextMinute_ok (dt : DateTime) (h : ValidDT dt) :
    ValidDT (nextMinute dt) ∧ toSec (nextMinute dt) = toSec dt + 60 := by
  have hd := nextHour_ok dt h
  obtain ⟨⟨v1, v2, v3, v4, v5, v6, v7, v8⟩, hsec⟩ := hd
  obtain ⟨hy, hm1, hm2, hd1, hd2, hh, hmi, hs⟩ := h
  unfold nextMinute
  split
  · next hlt =>
    constructor
    · simp only [ValidDT]
      omega
    · simp only [toSec]
      omega
  · next hge =>
    constructor
    · simp only [ValidDT] at *
      omega
    · simp only [toSec] at hsec ⊢
      omega

theorem nextSecond_ok (dt : DateTime) (h : ValidDT dt) :
    ValidDT (nextSecond dt) ∧ toSec (nextSecond dt) = toSec dt + 1 := by
  have hd := nextMinute_ok dt h
  obtain ⟨⟨v1, v2, v3, v4, v5, v6, v7, v8⟩, hsec⟩ := hd
  obtain ⟨hy, hm1, hm2, hd1, hd2, hh, hmi, hs⟩ := h
  unfold nextSecond
  split
  · next hlt =>
    constructor
    · simp only [ValidDT]
      omega
    · simp only [toSec]
      omega
  · next hge =>
    constructor
    · simp only [ValidDT] at *
      omega
    · simp only [toSec] at hsec ⊢
      omega

theorem gIdx_succ (i : Nat) (hi : 12 ≤ i) :
    gIdx (i + 1) = gIdx i + daysInMonth (i / 12) (i % 12 + 1) := by
  have hy : 1 ≤ i / 12 := by omega
  rcases Nat.lt_or_ge (i % 12) 11 with hr | hr
  · have e1 : (i + 1) / 12 = i / 12 := by omega
    have e2 : (i + 1) % 12 = i % 12 + 1 := by omega
    have hsucc := daysBeforeMonth_succ (i / 12) (i % 12 + 1) (by omega) (by omega)
    unfold gIdx
    rw [e1, e2, hsucc]
    ring
  · have hr11 : i % 12 = 11 := by omega
    have e1 : (i + 1) / 12 = i / 12 + 1 := by omega
    have e2 : (i + 1) % 12 = 0 := by omega
    have hylen := daysBeforeYear_succ (i / 12) hy
    have h12 : daysInMonth (i / 12) 12 = 31 := by simp [daysInMonth]
    have hb12 : daysBeforeMonth (i / 12) 12 =
        334 + (if isLeap (i / 12) = true then 1 else 0) := by
      simp [daysBeforeMonth]
    have hb1 : daysBeforeMonth (i / 12 + 1) 1 = 0 := by simp [daysBeforeMonth]
    unfold gIdx
    rw [e1, e2, hr11, hylen, h12, hb12, hb1]
    cases hL : isLeap (i / 12) <;> simp [hL]

theorem gIdx_le_of_lt (i n : Nat) (hi : 12 ≤ i) (hn : 1 ≤ n) :
    gIdx i + daysInMonth (i / 12) (i % 12 + 1) ≤ gIdx (i + n) := by
  induction n with
  | zero => omega
  | succ k ih =>
    rcases Nat.eq_zero_or_pos k with hk | hk
    · subst hk
      exact (gIdx_succ i hi).ge
    · have h1 := ih hk
      have h2 := gIdx_succ (i + k) (by omega)
      have h3 := daysInMonth_pos ((i + k) / 12) ((i + k) % 12 + 1)
      have e : i + (k + 1) = i + k + 1 := by omega
      rw [e]
      omega

theorem toRataDie_eq_gIdx (dt : DateTime) (h : ValidDT dt) :
    toRataDie dt.year dt.month dt.day = gIdx (monthIdx dt) + dt.day := by
  obtain ⟨hy, hm1, hm2, _, _, _, _, _⟩ := h
  unfold toRataDie gIdx monthIdx
  have e1 : (12 * dt.year + (dt.month - 1)) / 12 = dt.year := by omega
  have e2 : (12 * dt.year + (dt.month - 1)) % 12 + 1 = dt.month := by omega
  rw [e1, e2]

theorem monthIdx_addMonths (n : Nat) (dt : DateTime) (h : ValidDT dt) :
    monthIdx (addMonths n dt) = monthIdx dt + n := by
  obtain ⟨hy, hm1, hm2, _, _, _, _, _⟩ := h
  simp only [monthIdx, addMonths]
  omega

theorem monthIdx_addYears (n : Nat) (dt : DateTime) :
    monthIdx (addYears n dt) = monthIdx dt + 12 * n := by
  simp only [monthIdx, addYears]
  omega

theorem addMonths_ok (n : Nat) (dt : DateTime) (hn : 1 ≤ n) (h : ValidDT dt) :
    ValidDT (addMonths n dt) ∧ toSec dt < toSec (addMonths n dt) := by
  have hvalid : ValidDT (addMonths n dt) := by
    obtain ⟨hy, hm1, hm2, hd1, hd2, hh, hmi, hs⟩ := h
    have hp := daysInMonth_pos (dt.year + (dt.month - 1 + n) / 12)
      ((dt.month - 1 + n) % 12 + 1)
    simp only [ValidDT, addMonths]
    omega
  refine ⟨hvalid, ?_⟩
  have hidx : 12 ≤ monthIdx dt := by
    obtain ⟨hy, hm1, _, _, _, _, _, _⟩ := h
    simp only [monthIdx]; omega
  have hrd1 := toRataDie_eq_gIdx dt h
  have hrd2 := toRataDie_eq_gIdx (addMonths n dt) hvalid
  rw [monthIdx_addMonths n dt h] at hrd2
  have hstep := gIdx_le_of_lt (monthIdx dt) n hidx hn
  have hdimeq : daysInMonth (monthIdx dt / 12) (monthIdx dt % 12 + 1) =
      daysInMonth dt.year dt.month := by
    obtain ⟨hy, hm1, hm2, _, _, _, _, _⟩ := h
    have e1 : monthIdx dt / 12 = dt.year := by simp only [monthIdx]; omega
    have e2 : monthIdx dt % 12 + 1 = dt.month := by simp only [monthIdx]; omega
    rw [e1, e2]
  rw [hdimeq] at hstep
  obtain ⟨hy, hm1, hm2, hd1, hd2, hh, hmi, hs⟩ := h
  obtain ⟨vy, vm1, vm2, vd1, vd2, vh, vmi, vs⟩ := hvalid
  have htod : (addMonths n dt).hour = dt.hour ∧
      (addMonths n dt).minute = dt.minute ∧
      (addMonths n dt).second = dt.second := by
    simp [addMonths]
  simp only [toSec] at *
  omega

theorem addYears_ok (n : Nat) (dt : DateTime) (hn : 1 ≤ n) (h : ValidDT dt) :
    ValidDT (addYears n dt) ∧ toSec dt < toSec (addYears n dt) := by
  have hvalid : ValidDT (addYears n dt) := by
    obtain ⟨hy, hm1, hm2, hd1, hd2, hh, hmi, hs⟩ := h
    have hp := daysInMonth_pos (dt.year + n) dt.month
    simp only [ValidDT, addYears]
    omega
  refine ⟨hvalid, ?_⟩
  have hidx : 12 ≤ monthIdx dt := by
    obtain ⟨hy, hm1, _, _, _, _, _, _⟩ := h
    simp only [monthIdx]; omega
  have hrd1 := toRataDie_eq_gIdx dt h
  have hrd2 := toRataDie_eq_gIdx (addYears n dt) hvalid
  rw [monthIdx_addYears n dt] at hrd2
  have hstep := gIdx_le_of_lt (monthIdx dt) (12 * n) hidx (by omega)
  have hdimeq : daysInMonth (monthIdx dt / 12) (monthIdx dt % 12 + 1) =
      daysInMonth dt.year dt.month := by
    obtain ⟨hy, hm1, hm2, _, _, _, _, _⟩ := h
    have e1 : monthIdx dt / 12 = dt.year := by simp only [monthIdx]; omega
    have e2 : monthIdx dt % 12 + 1 = dt.month := by simp only [monthIdx]; omega
    rw [e1, e2]
  rw [hdimeq] at hstep
  obtain ⟨hy, hm1, hm2, hd1, hd2, hh, hmi, hs⟩ := h
  obtain ⟨vy, vm1, vm2, vd1, vd2, vh, vmi, vs⟩ := hvalid
  have htod : (addYears n dt).hour = dt.hour ∧
      (addYears n dt).minute = dt.minute ∧
      (addYears n dt).second = dt.second := by
    simp [addYears]
  simp only [toSec] at *
  omega

theorem iterate_ok (step : DateTime → DateTime) (c : Nat)
    (hs : ∀ d, ValidDT d → ValidDT (step d) ∧ toSec (step d) = toSec d + c) :
    ∀ (n : Nat) (d : DateTime), ValidDT d →
      ValidDT (Nat.iterate step n d) ∧
        toSec (Nat.iterate step n d) = toSec d + n * c := by
  intro n
  induction n with
  | zero => intro d hd; simpa using hd
  | succ k ih =>
    intro d hd
    have h1 := hs d hd
    have h2 := ih (step d) h1.1
    rw [Function.iterate_succ_apply]
    refine ⟨h2.1, ?_⟩
    rw [h2.2, h1.2]
    ring

theorem stepOK_applyDelta (u : RDUnit) (n : Nat) (hn : 1 ≤ n) :
    StepOK (applyDelta u n) := by
  intro d hd
  cases u with
  | years => exact addYears_ok n d hn hd
  | months => exact addMonths_ok n d hn hd
  | weeks =>
    have h := iterate_ok nextDay 86400 nextDay_ok (7 * n) d hd
    have h2 := h.2
    simp only [applyDelta]
    exact ⟨h.1, by omega⟩
  | days =>
    have h := iterate_ok nextDay 86400 nextDay_ok n d hd
    have h2 := h.2
    simp only [applyDelta]
    exact ⟨h.1, by omega⟩
  | hours =>
    have h := iterate_ok nextHour 3600 nextHour_ok n d hd
    have h2 := h.2
    simp only [applyDelta]
    exact ⟨h.1, by omega⟩
  | minutes =>
    have h := iterate_ok nextMinute 60 nextMinute_ok n d hd
    have h2 := h.2
    simp only [applyDelta]
    exact ⟨h.1, by omega⟩
  | seconds =>
    have h := iterate_ok nextSecond 1 nextSecond_ok n d hd
    have h2 := h.2
    simp only [applyDelta]
    exact ⟨h.1, by omega⟩

theorem advanceLoop_reaches (step : DateTime → DateTime) (now : DateTime) :
    ∀ (K : Nat) (due : DateTime),
      (∀ j, j < K → toSec (Nat.iterate step j due) < toSec now) →
      toSec now ≤ toSec (Nat.iterate step K due) →
      ∀ fuel, K ≤ fuel →
        advanceLoop step now fuel due = some (Nat.iterate step K due) := by
  intro K
  induction K with
  | zero =>
    intro due hlt hge fuel hf
    have hnolt : dtLt due now = false := by
      simp only [dtLt, decide_eq_false_iff_not, not_lt]
      simpa using hge
    cases fuel <;> simp [advanceLoop, hnolt]
  | succ k ih =>
    intro due hlt hge fuel hf
    obtain ⟨f, rfl⟩ : ∃ f, fuel = f + 1 := ⟨fuel - 1, by omega⟩
    have h0 : dtLt due now = true := by
      simp only [dtLt, decide_eq_true_eq]
      simpa using hlt 0 (by omega)
    have hshift : ∀ j, Nat.iterate step j (step due) = Nat.iterate step (j + 1) due := by
      intro j
      rw [Function.iterate_succ_apply]
    have hrec := ih (step due)
      (by
        intro j hj
        rw [hshift j]
        exact hlt (j + 1) (by omega))
      (by
        rw [hshift k]
        exact hge)
      f (by omega)
    simp only [advanceLoop, h0, if_true]
    rw [hrec, hshift k]

theorem iterate_mono (step : DateTime → DateTime) (hs : StepOK step)
    (due : DateTime) (hv : ValidDT due) :
    ∀ k, ValidDT (Nat.iterate step k due) ∧
      toSec due + k ≤ toSec (Nat.iterate step k due) := by
  intro k
  induction k with
  | zero => simpa using hv
  | succ j ih =>
    rw [Function.iterate_succ_apply']
    have h1 := hs (Nat.iterate step j due) ih.1
    exact ⟨h1.1, by omega⟩

/-- C1. For every past-due date and valid recurrence rule (positive count,
recognized unit), the loop in `process_card` terminates at the first k-fold
application of the period that is no longer before "now": the result is that
iterate, it is ≥ now, its predecessor iterate is < now, and its timestamp is
the smallest among all positive iterates that are ≥ now. -/
theorem advancer_yields_least_iterate (u : RDUnit) (n : Nat) (due now : DateTime)
    (hn : 1 ≤ n) (hv : ValidDT due) (hpast : toSec due < toSec now) :
    ∃ K, 1 ≤ K ∧
      (∀ fuel, K ≤ fuel →
        advanceLoop (applyDelta u n) now fuel due
          = some (Nat.iterate (applyDelta u n) K due)) ∧
      toSec now ≤ toSec (Nat.iterate (applyDelta u n) K due) ∧
      toSec (Nat.iterate (applyDelta u n) (K - 1) due) < toSec now ∧
      (∀ j, 1 ≤ j → toSec now ≤ toSec (Nat.iterate (applyDelta u n) j due) →
        toSec (Nat.iterate (applyDelta u n) K due)
          ≤ toSec (Nat.iterate (applyDelta u n) j due)) := by
  have hstep := stepOK_applyDelta u n hn
  have hiter := iterate_mono (applyDelta u n) hstep due hv
  have hex : ∃ k, toSec now ≤ toSec (Nat.iterate (applyDelta u n) k due) := by
    refine ⟨toSec now, ?_⟩
    have := (hiter (toSec now)).2
    omega
  refine ⟨Nat.find hex, ?_, ?_, ?_, ?_, ?_⟩
  · rcases Nat.eq_zero_or_pos (Nat.find hex) with h0 | h0
    · exfalso
      have := Nat.find_spec hex
      rw [h0] at this
      simp only [Function.iterate_zero_apply] at this
      omega
    · omega
  · intro fuel hf
    refine advanceLoop_reaches (applyDelta u n) now (Nat.find hex) due ?_ ?_ fuel hf
    · intro j hj
      have := Nat.find_min hex hj
      omega
    · exact Nat.find_spec hex
  · exact Nat.find_spec hex
  · have hlt : Nat.find hex - 1 < Nat.find hex := by
      rcases Nat.eq_zero_or_pos (Nat.find hex) with h0 | h0
      · exfalso
        have := Nat.find_spec hex
        rw [h0] at this
        simp only [Function.iterate_zero_apply] at this
        omega
      · omega
    have := Nat.find_min hex hlt
    omega
  · intro j hj1 hj2
    have hKj : Nat.find hex ≤ j := Nat.find_min' hex hj2
    have hsplit : Nat.iterate (applyDelta u n) j due =
        Nat.iterate (applyDelta u n) (j - Nat.find hex)
          (Nat.iterate (applyDelta u n) (Nat.find hex) due) := by
      rw [← Function.iterate_add_apply]
      congr 1
      omega
    have hmore := iterate_mono (applyDelta u n) hstep
      (Nat.iterate (applyDelta u n) (Nat.find hex) due)
      (hiter (Nat.find hex)).1 (j - Nat.find hex)
    rw [hsplit]
    omega

theorem eligibleProj_some (now : DateTime) (r : RawCard)
    (v : String × String × DateTime) (h : eligibleProj now r = some v) :
    is_regular r = true ∧ parseDue r.due = some v.2.2 ∧
      dtLt v.2.2 now = true ∧ v.1 = r.name ∧ v.2.1 = r.id := by
  unfold eligibleProj at h
  split at h
  · split at h
    · next due hd =>
      split at h
      · next hlt =>
        injection h with h
        subst h
        exact ⟨by assumption, hd, hlt, rfl, rfl⟩
      · exact absurd h (by simp)
    · exact absurd h (by simp)
  · exact absurd h (by simp)

theorem eligibleProj_pos (now : DateTime) (r : RawCard) (due : DateTime)
    (h1 : is_regular r = true) (h2 : parseDue r.due = some due)
    (h3 : dtLt due now = true) :
    eligibleProj now r = some (r.name, r.id, due) := by
  unfold eligibleProj
  rw [h1, h2]
  simp [h3]

theorem filterStep_map (now : DateTime) (st : Option (Nat × String))
    (acc : List Card) (c : RawCard) (st2 : Option (Nat × String))
    (acc2 : List Card) (h : filterStep now st acc c = Except.ok (st2, acc2)) :
    acc2.map cardKey = acc.map cardKey ++ (eligibleProj now c).toList := by
  unfold filterStep at h
  split at h
  · next hreg =>
    injection h with h
    injection h with h1 h2
    have hr : is_regular c = false := by simpa using hreg
    simp [eligibleProj, hr, ← h2]
  · next hreg =>
    have hrt : is_regular c = true := by simpa using hreg
    split at h
    · next hd =>
      injection h with h
      injection h with h1 h2
      simp [eligibleProj, hrt, hd, ← h2]
    · next due hd =>
      split at h
      · next hlt =>
        injection h with h
        injection h with h1 h2
        have hl : dtLt due now = false := by simpa using hlt
        simp [eligibleProj, hrt, hd, hl, ← h2]
      · next hlt =>
        have hlt2 : dtLt due now = true := by simpa using hlt
        have helig := eligibleProj_pos now c due hrt hd hlt2
        split at h
        · next len ty hp =>
          injection h with h
          injection h with h1 h2
          simp [helig, ← h2, cardKey]
        · next hp =>
          split at h
          · next len ty hst =>
            injection h with h
            injection h with h1 h2
            simp [helig, ← h2, cardKey]
          · exact absurd h (by simp)

theorem filterGo_ok_map (now : DateTime) :
    ∀ (cards : List RawCard) (st : Option (Nat × String)) (acc : List Card)
      (st2 : Option (Nat × String)) (out : List Card),
      filterGo now st acc cards = Except.ok (st2, out) →
      out.map cardKey = acc.map cardKey ++ cards.filterMap (eligibleProj now) := by
  intro cards
  induction cards with
  | nil =>
    intro st acc st2 out h
    unfold filterGo at h
    injection h with h
    injection h with h1 h2
    simp [← h2]
  | cons c rest ih =>
    intro st acc st2 out h
    unfold filterGo at h
    cases hs : filterStep now st acc c with
    | error e => rw [hs] at h; exact absurd h (by simp)
    | ok p =>
      rw [hs] at h
      cases p with
      | mk stm accm =>
        have hmid := filterStep_map now st acc c stm accm hs
        have htail := ih stm accm st2 out h
        rw [htail, hmid]
        cases he : eligibleProj now c with
        | none => simp [List.filterMap_cons, he]
        | some v => simp [List.filterMap_cons, he]

/-- C2. Whenever the filter returns (rather than raising), its output
projected to (name, id, due) is exactly the in-order subsequence of input
cards that carry the "Regular" label and whose due date parses to a
timestamp before "now": no unlabelled card, no future-due card, no
reordering. -/
theorem filter_exact_and_stable (now : DateTime) (cards : List RawCard)
    (out : List Card) (h : filter_out_cards now cards = Except.ok out) :
    out.map cardKey = cards.filterMap (eligibleProj now) ∧
    ∀ c ∈ out, ∃ r ∈ cards, is_regular r = true ∧
      parseDue r.due = some c.due ∧ toSec c.due < toSec now := by
  unfold filter_out_cards at h
  have hmain : out.map cardKey = cards.filterMap (eligibleProj now) := by
    cases hg : filterGo now none [] cards with
    | error e => rw [hg] at h; exact absurd h (by simp)
    | ok p =>
      rw [hg] at h
      cases p with
      | mk st2 acc =>
        injection h with h
        subst h
        simpa using filterGo_ok_map now cards none [] st2 acc hg
  refine ⟨hmain, ?_⟩
  intro c hc
  have hk : cardKey c ∈ cards.filterMap (eligibleProj now) := by
    rw [← hmain]
    exact List.mem_map_of_mem cardKey hc
  obtain ⟨r, hr, he⟩ := List.mem_filterMap.mp hk
  obtain ⟨e1, e2, e3, e4, e5⟩ := eligibleProj_some now r (cardKey c) he
  refine ⟨r, hr, e1, e2, ?_⟩
  simpa [dtLt] using e3

theorem filterGo_cons (now : DateTime) (st : Option (Nat × String))
    (acc : List Card) (c : RawCard) (rest : List RawCard) :
    filterGo now st acc (c :: rest) =
      match filterStep now st acc c with
      | Except.ok (st2, acc2) => filterGo now st2 acc2 rest
      | Except.error e => Except.error e := rfl

theorem filterGo_append (now : DateTime) :
    ∀ (xs ys : List RawCard) (st : Option (Nat × String)) (acc : List Card),
      filterGo now st acc (xs ++ ys) =
        match filterGo now st acc xs with
        | Except.ok (st2, acc2) => filterGo now st2 acc2 ys
        | Except.error e => Except.error e := by
  intro xs
  induction xs with
  | nil => intro ys st acc; rfl
  | cons c rest ih =>
    intro ys st acc
    rw [List.cons_append, filterGo_cons, filterGo_cons]
    cases hs : filterStep now st acc c with
    | error e => rfl
    | ok p =>
      cases p with
      | mk st2 acc2 =>
        show filterGo now st2 acc2 (rest ++ ys) =
          match filterGo now st2 acc2 rest with
          | Except.ok (st3, acc3) => filterGo now st3 acc3 ys
          | Except.error e => Except.error e
        exact ih ys st2 acc2

theorem phase1_cons (fuel : Nat) (now : DateTime) (b : Board)
    (lists : List BoardList) (l : BoardList) (ls : List BoardList) :
    phase1 fuel now b lists (l :: ls) =
      match filter_out_cards now (get_cards (b.cardsResp l.identifier)) with
      | Except.error e => some ([], some e)
      | Except.ok cards =>
        match processCards fuel now lists cards with
        | none => none
        | some cmds =>
          match phase1 fuel now b lists ls with
          | none => none
          | some (rest, err) => some (cmds ++ rest, err) := rfl

/-- C6. A card that passes the label and past-due checks but whose
description fails the recurrence regex is still appended to the filter's
output, its recurrence fields holding whatever values the previous
successful parse left in the loop's local variables. -/
theorem stale_recurrence_still_appended (now : DateTime) (pre : List RawCard)
    (c : RawCard) (len : Nat) (ty : String) (acc : List Card) (d : DateTime)
    (h1 : filterGo now none [] pre = Except.ok (some (len, ty), acc))
    (h2 : eligibleProj now c = some (c.name, c.id, d))
    (h3 : parseRecurrence c.desc = none) :
    filter_out_cards now (pre ++ [c])
      = Except.ok (acc ++ [Card.mk c.name c.id d len ty]) := by
  obtain ⟨e1, e2, e3, _, _⟩ := eligibleProj_some now c _ h2
  have hstep : filterStep now (some (len, ty)) acc c
      = Except.ok (some (len, ty), acc ++ [Card.mk c.name c.id d len ty]) := by
    unfold filterStep
    simp [e1, e2, e3, h3]
  unfold filter_out_cards
  rw [filterGo_append now pre [c] none [], h1]
  show (match filterGo now (some (len, ty)) acc [c] with
    | Except.ok (_, a) => Except.ok a
    | Except.error e => Except.error e) = _
  rw [filterGo_cons, hstep]
  rfl

theorem stale_recurrence_still_appended_witness :
    filterGo jan20 none [] [goodCard]
      = Except.ok (some (1, "weeks"), [Card.mk "weekly task" "c1" jan1 1 "weeks"]) ∧
    eligibleProj jan20 staleCard = some (staleCard.name, staleCard.id, jan2) ∧
    parseRecurrence staleCard.desc = none ∧
    filter_out_cards jan20 [goodCard, staleCard]
      = Except.ok [Card.mk "weekly task" "c1" jan1 1 "weeks",
                   Card.mk "broken rule" "c2" jan2 1 "weeks"] :=
  ⟨by rfl, by rfl, by rfl,
    stale_recurrence_still_appended jan20 [goodCard] staleCard 1 "weeks"
      [Card.mk "weekly task" "c1" jan1 1 "weeks"] jan2 (by rfl) (by rfl) (by rfl)⟩

/-- C10. If the first card of a batch that reaches the recurrence-parse step
fails it — no earlier card in the same `filter_out_cards` call having parsed
successfully — the append reads the never-assigned locals
`period_len`/`period_type`: the UnboundLocalError escapes the filter, and
since `main` has no handler it aborts the entire run. -/
theorem unbound_local_aborts_run (fuel : Nat) (now : DateTime)
    (pre : List RawCard) (c : RawCard) (rest : List RawCard) (acc : List Card)
    (d : DateTime) (b : Board) (l : BoardList) (ls : List BoardList)
    (h1 : filterGo now none [] pre = Except.ok (none, acc))
    (h2 : eligibleProj now c = some (c.name, c.id, d))
    (h3 : parseRecurrence c.desc = none)
    (hb1 : get_lists b.listsResp = l :: ls)
    (hb2 : get_cards (b.cardsResp l.identifier) = pre ++ c :: rest) :
    filter_out_cards now (pre ++ c :: rest) = Except.error "UnboundLocalError" ∧
    runMain fuel now b = some ([], some "UnboundLocalError") := by
  obtain ⟨e1, e2, e3, _, _⟩ := eligibleProj_some now c _ h2
  have hstep : filterStep now none acc c = Except.error "UnboundLocalError" := by
    unfold filterStep
    simp [e1, e2, e3, h3]
  have hfilter : filter_out_cards now (pre ++ c :: rest)
      = Except.error "UnboundLocalError" := by
    unfold filter_out_cards
    rw [filterGo_append now pre (c :: rest) none [], h1]
    show (match filterGo now none acc (c :: rest) with
      | Except.ok (_, a) => Except.ok a
      | Except.error e => Except.error e) = _
    rw [filterGo_cons, hstep]
  refine ⟨hfilter, ?_⟩
  unfold runMain
  rw [hb1, phase1_cons, hb2, hfilter]

theorem list_names_nodup : list_names.Nodup := by decide

theorem find_eq_getElem :
    ∀ (ls : List BoardList) (i : Nat) (l : BoardList),
      (ls.map BoardList.name).Nodup → ls[i]? = some l →
      ls.find? (fun x => x.name == l.name) = some l := by
  intro ls
  induction ls with
  | nil => intro i l _ hget; simp at hget
  | cons x xs ih =>
    intro i l hnd hget
    have hnd2 := hnd
    rw [List.map_cons, List.nodup_cons] at hnd2
    cases i with
    | zero =>
      rw [List.getElem?_cons_zero] at hget
      injection hget with hget
      subst hget
      rw [List.find?_cons_of_pos _ (by simp)]
    | succ j =>
      rw [List.getElem?_cons_succ] at hget
      have hmem : l ∈ xs := by
        rcases List.getElem?_eq_some_iff.mp hget with ⟨hj, hl⟩
        exact hl ▸ List.getElem_mem hj
      have hne : x.name ≠ l.name := by
        intro he
        exact hnd2.1 (he ▸ List.mem_map_of_mem BoardList.name hmem)
      rw [List.find?_cons_of_neg _ (by simpa using hne)]
      exact ih j l hnd2.2 hget

/-- C3. With the seven weekday lists fetched (their names equal, in order,
to the Monday-first canonical names), routing any timestamp selects exactly
the fetched list ranked at index weekday(due) — the one whose name is the
due date's weekday name; and whenever no fetched list carries the wanted
name, the lookup yields nothing and `process_card` skips the card without
issuing a relocation command. -/
theorem router_selects_weekday_list (lists : List BoardList) (dt : DateTime)
    (hmap : lists.map BoardList.name = list_names) :
    (∃ l, lists[weekday dt]? = some l ∧ l.name = routeName dt ∧
      findListId lists (routeName dt) = some l.identifier) ∧
    (∀ (lists2 : List BoardList) (fuel : Nat) (now : DateTime) (card : Card)
      (due2 : DateTime),
      advanceStage fuel now card = some (some due2) →
      (∀ l ∈ lists2, l.name ≠ routeName due2) →
      findListId lists2 (routeName due2) = none ∧
      process_card fuel now lists2 card = some none) := by
  constructor
  · have hlen : lists.length = 7 := by
      have := congrArg List.length hmap
      simpa using this
    have hw : weekday dt < 7 := by
      unfold weekday
      omega
    obtain ⟨l, hl⟩ : ∃ l, lists[weekday dt]? = some l := by
      rw [List.getElem?_eq_getElem (by omega)]
      exact ⟨_, rfl⟩
    have hname : l.name = routeName dt := by
      have h1 : (lists.map BoardList.name)[weekday dt]? = some l.name := by
        rw [List.getElem?_map, hl]
        rfl
      rw [hmap] at h1
      unfold routeName
      rw [List.getD_eq_getElem?_getD, h1]
      rfl
    refine ⟨l, hl, hname, ?_⟩
    unfold findListId
    rw [← hname, find_eq_getElem lists (weekday dt) l (by rw [hmap]; exact list_names_nodup) hl]
    rfl
  · intro lists2 fuel now card due2 hadv hne
    have hfind : findListId lists2 (routeName due2) = none := by
      unfold findListId
      rw [List.find?_eq_none.mpr]
      · rfl
      · intro x hx
        simpa using hne x hx
    refine ⟨hfind, ?_⟩
    unfold process_card
    rw [hadv]
    show (match findListId lists2 (routeName due2) with
      | none => some none
      | some listId => some (some (Command.relocate card.identifier due2 listId))) = _
    rw [hfind]

theorem router_selects_weekday_list_witness :
    (∃ l, weekLists[weekday jan22]? = some l ∧ l.name = routeName jan22 ∧
      findListId weekLists (routeName jan22) = some l.identifier) ∧
    findListId [] (routeName jan22) = none ∧
    process_card 1 jan20 [] (Card.mk "t" "c9" jan22 1 "weeks") = some none := by
  have h := router_selects_weekday_list weekLists jan22 (by rfl)
  have h2 := h.2 [] 1 jan20 (Card.mk "t" "c9" jan22 1 "weeks") jan22 (by rfl)
    (by intro l hl; simp at hl)
  exact ⟨h.1, h2.1, h2.2⟩

/-- C7. If the initial lists fetch raises, the run degrades to the empty
list collection: both phases iterate over zero lists, no mutation command
is issued, and main completes without an uncaught exception. -/
theorem degrade_to_empty (fuel : Nat) (now : DateTime) (b : Board)
    (e : String) (h : b.listsResp = Except.error e) :
    get_lists b.listsResp = [] ∧ runMain fuel now b = some ([], none) := by
  have hg : get_lists b.listsResp = [] := by rw [h]; rfl
  refine ⟨hg, ?_⟩
  unfold runMain
  rw [hg]
  rfl

theorem degrade_to_empty_witness :
    get_lists emptyBoard.listsResp = [] ∧
    runMain 0 jan20 emptyBoard = some ([], none) :=
  degrade_to_empty 0 jan20 emptyBoard "http error" rfl

/-- C5 (code bug). Phase 2 has no exception handling: a list containing a
card whose due date is absent makes strptime raise out of
`construct_cards_to_order` and `main` aborts — no card of the list is
repositioned, instead of skipping just the broken card as the
skip-and-continue policy promises. -/
theorem phase2_unparsable_due_aborts_run (fuel : Nat) :
    runMain fuel jan20 phase2CrashBoard
      = some ([], some "ValueError: strptime") := rfl

/-- C4 (code bug). For a past-due card whose recurrence count is 0 with a
recognized unit (description "0 days"), the while loop adds a zero delta
each iteration, so no fuel bound ever makes it terminate: `process_card`
never returns for this card instead of logging an error and skipping it. -/
theorem zero_count_rule_loops_forever (fuel : Nat) :
    parseRecurrence "0 days" = some (0, "days") ∧
    advanceLoop (applyDelta RDUnit.days 0) jan20 fuel jan1 = none ∧
    process_card fuel jan20 weekLists zeroCard = none := by
  have hlt : dtLt jan1 jan20 = true := by decide
  have hloop : ∀ f, advanceLoop (applyDelta RDUnit.days 0) jan20 f jan1 = none := by
    intro f
    induction f with
    | zero => simp [advanceLoop, hlt]
    | succ k ih =>
      have hid : applyDelta RDUnit.days 0 jan1 = jan1 := rfl
      simp [advanceLoop, hlt, hid, ih]
  refine ⟨rfl, hloop fuel, ?_⟩
  have hstage : advanceStage fuel jan20 zeroCard = none := by
    unfold advanceStage
    rw [show zeroCard.due = jan1 from rfl, hlt,
      show zeroCard.period_type = "days" from rfl,
      show parseUnit "days" = some RDUnit.days from rfl,
      show zeroCard.period_len = 0 from rfl]
    simp [hloop fuel]
  unfold process_card
  rw [hstage]

/-- C9. Concrete scenario: due 2023-01-01T00:00:00.000Z, description
"1 weeks", now 2023-01-20T00:00:00.000Z. The rule parses as (1, weeks), the
advancer yields exactly 2023-01-22 (Jan 1 → 8 → 15 → 22), that date's
weekday is Sunday (index 6 of the Monday-first names), and `process_card`
relocates the card to the list named for Sunday. -/
theorem scenario_one_weeks :
    parseRecurrence "1 weeks" = some (1, "weeks") ∧
    parseDate "2023-01-01T00:00:00.000Z" = some jan1 ∧
    advanceLoop (applyDelta RDUnit.weeks 1) jan20 10 jan1 = some jan22 ∧
    weekday jan22 = 6 ∧
    list_names.getD 6 "" = "Воскресенье" ∧
    weekLists.getD 6 ⟨"", ""⟩ = ⟨"Воскресенье", "L7"⟩ ∧
    process_card 10 jan20 weekLists (Card.mk "weekly task" "c1" jan1 1 "weeks")
      = some (some (Command.relocate "c1" jan22 "L7")) := by
  refine ⟨rfl, by decide, by decide, by decide, rfl, rfl, by decide⟩

theorem advancer_yields_least_iterate_witness :
    ((1 : Nat) ≤ 1 ∧ ValidDT jan1 ∧ toSec jan1 < toSec jan20) ∧
    (∃ K, 1 ≤ K ∧
      (∀ fuel, K ≤ fuel →
        advanceLoop (applyDelta RDUnit.weeks 1) jan20 fuel jan1
          = some (Nat.iterate (applyDelta RDUnit.weeks 1) K jan1)) ∧
      toSec jan20 ≤ toSec (Nat.iterate (applyDelta RDUnit.weeks 1) K jan1) ∧
      toSec (Nat.iterate (applyDelta RDUnit.weeks 1) (K - 1) jan1) < toSec jan20 ∧
      (∀ j, 1 ≤ j →
        toSec jan20 ≤ toSec (Nat.iterate (applyDelta RDUnit.weeks 1) j jan1) →
        toSec (Nat.iterate (applyDelta RDUnit.weeks 1) K jan1)
          ≤ toSec (Nat.iterate (applyDelta RDUnit.weeks 1) j jan1))) :=
  ⟨⟨le_refl 1, by decide, by decide⟩,
    advancer_yields_least_iterate RDUnit.weeks 1 jan1 jan20 (le_refl 1)
      (by decide) (by decide)⟩

theorem filter_orderedInsert (k : Nat) (c : CardToSort) (l : List CardToSort) :
    (List.orderedInsert dueLE c l).filter (fun x => toSec x.due == k)
      = if toSec c.due == k
        then c :: l.filter (fun x => toSec x.due == k)
        else l.filter (fun x => toSec x.due == k) := by
  induction l with
  | nil =>
    rw [List.orderedInsert, List.filter_cons]
  | cons x xs ih =>
    by_cases hcx : dueLE c x
    · rw [List.orderedInsert, if_pos hcx, List.filter_cons]
    · rw [List.orderedInsert, if_neg hcx, List.filter_cons, List.filter_cons]
      by_cases hck : (toSec c.due == k) = true
      · have hxk : (toSec x.due == k) = false := by
          have h1 : toSec x.due < toSec c.due := by
            unfold dueLE at hcx
            omega
          have h2 : toSec c.due = k := by simpa using hck
          simp only [beq_eq_false_iff_ne, ne_eq]
          omega
        rw [hxk, ih, if_pos hck, if_pos hck]
        simp
      · have hck2 : (toSec c.due == k) = false := by simpa using hck
        rw [ih, hck2]
        simp only [Bool.false_eq_true, if_false]

theorem sort_cards_filter (cards : List CardToSort) (k : Nat) :
    (sort_cards cards).filter (fun x => toSec x.due == k)
      = cards.filter (fun x => toSec x.due == k) := by
  unfold sort_cards
  induction cards with
  | nil => rfl
  | cons c xs ih =>
    rw [List.insertionSort, filter_orderedInsert, ih, List.filter_cons]

/-- C8. `sort_cards` orders the fetched tasks by due timestamp ascending,
keeping cards with equal due dates in their input order (a stable
permutation), and phase 2 issues exactly one bottom-reposition command per
card, strictly in that sorted order. -/
theorem orderer_sorted_stable (cards : List CardToSort) :
    List.Sorted dueLE (sort_cards cards) ∧
    List.Perm (sort_cards cards) cards ∧
    (∀ k : Nat, (sort_cards cards).filter (fun x => toSec x.due == k)
      = cards.filter (fun x => toSec x.due == k)) ∧
    (∀ (b : Board) (l : BoardList) (cs : List CardToSort),
      construct_cards_to_order (get_cards (b.cardsResp l.identifier))
        = Except.ok cs →
      phase2 b [l]
        = ((sort_cards cs).map (fun c => Command.reposition c.identifier),
            none)) := by
  refine ⟨List.sorted_insertionSort dueLE cards,
    List.perm_insertionSort dueLE cards,
    fun k => sort_cards_filter cards k, ?_⟩
  intro b l cs hc
  show (match construct_cards_to_order (get_cards (b.cardsResp l.identifier)) with
    | Except.error e => ([], some e)
    | Except.ok cards2 =>
      match phase2 b [] with
      | (rest, err) =>
        ((sort_cards cards2).map
            (fun c : CardToSort => Command.reposition c.identifier)
          ++ rest, err)) = _
  rw [hc]
  show ((sort_cards cs).map
      (fun c : CardToSort => Command.reposition c.identifier)
    ++ [], none) = _
  rw [List.append_nil]

theorem orderer_sorted_stable_witness :
    construct_cards_to_order (get_cards (sortBoard.cardsResp "L1"))
      = Except.ok [CardToSort.mk "later" "c6" feb10,
                   CardToSort.mk "sooner" "c7" feb5] ∧
    phase2 sortBoard [⟨"Понедельник", "L1"⟩]
      = ([Command.reposition "c7", Command.reposition "c6"], none) := by
  refine ⟨by rfl, ?_⟩
  have h := (orderer_sorted_stable []).2.2.2 sortBoard ⟨"Понедельник", "L1"⟩
    [CardToSort.mk "later" "c6" feb10, CardToSort.mk "sooner" "c7" feb5]
    (by rfl)
  rw [h]
  rfl

theorem filter_exact_and_stable_witness :
    ([Card.mk "weekly task" "c1" jan1 1 "weeks"].map cardKey
      = [goodCard, futureCard, unlabeledCard].filterMap (eligibleProj jan20)) ∧
    ∀ c ∈ [Card.mk "weekly task" "c1" jan1 1 "weeks"],
      ∃ r ∈ [goodCard, futureCard, unlabeledCard], is_regular r = true ∧
        parseDue r.due = some c.due ∧ toSec c.due < toSec jan20 :=
  filter_exact_and_stable jan20 [goodCard, futureCard, unlabeledCard]
    [Card.mk "weekly task" "c1" jan1 1 "weeks"] (by rfl)

theorem unbound_local_aborts_run_witness :
    filter_out_cards jan20 [staleCard] = Except.error "UnboundLocalError" ∧
    runMain 3 jan20 c10Board = some ([], some "UnboundLocalError") :=
  unbound_local_aborts_run 3 jan20 [] staleCard [] [] jan2 c10Board
    ⟨"Понедельник", "L1"⟩
    [⟨"Вторник", "L2"⟩, ⟨"Среда", "L3"⟩, ⟨"Четверг", "L4"⟩,
     ⟨"Пятница", "L5"⟩, ⟨"Суббота", "L6"⟩, ⟨"Воскресенье", "L7"⟩]
    (by rfl) (by rfl) (by rfl) (by rfl) (by rfl)
